import Mathlib

/-!
Verification of the configuration-resolution engine of the build-tool launcher
(`src/main/cpp/option_processor.cc`, with declarations from
`src/main/cpp/blaze_startup_options.h`).

The C++ code is shallowly embedded: the filesystem is a partial map from
filenames to file contents, `die` calls become `Except` errors, and machine
loops become structural recursion.  Helper routines from `blaze_util`
(tokenizer, string utilities, option scanners) and
`BlazeStartupOptions::ProcessArg` are not part of the excerpt; they are
modelled from the specification and marked as such in their doc comments.
-/

/-- One configuration-supplied option occurrence: `RcOption(rcfile_index, option)`. -/
structure RcOption where
  rcfile_index : Nat
  option : String
deriving Repr, DecidableEq

/-- One loaded configuration file: `RcFile(filename, index)`. -/
structure RcFile where
  filename : String
  index : Nat
deriving Repr, DecidableEq

/-- The `std::map<string, vector<RcOption>> rcoptions_` of the source, embedded as
an association list kept sorted by key in strictly ascending order (the
iteration order of the map), each key mapping to its vector in insertion order. -/
abbrev RcOptions := List (String × List RcOption)

/-- Lexicographic comparison of character lists by code point, the order
`std::map<string, ...>` keeps its keys in (`std::less<string>`; for UTF-8 data
byte order and code-point order coincide). -/
def charListLt : List Char → List Char → Bool
  | [], [] => false
  | [], _ :: _ => true
  | _ :: _, [] => false
  | c :: cs, d :: ds =>
    if c.toNat < d.toNat then true
    else if d.toNat < c.toNat then false
    else charListLt cs ds

/-- String comparison used by the embedded `std::map`. -/
def strLt (a b : String) : Bool := charListLt a.data b.data

/-- Insertion into `rcoptions_`: `(*rcoptions)[command].push_back(o)`.  A missing
key is created at its sorted position (as `std::map::operator[]` does); an
existing key has the option appended to its vector. -/
def insertRcOption : RcOptions → String → RcOption → RcOptions
  | [], k, o => [(k, [o])]
  | (k1, os) :: rest, k, o =>
    if strLt k k1 then (k, [o]) :: (k1, os) :: rest
    else if k = k1 then (k1, os ++ [o]) :: rest
    else (k1, os) :: insertRcOption rest k o

/-- Lookup in `rcoptions_` (`rcoptions_.find(key)`). -/
def lookupRcOptions (ro : RcOptions) (k : String) : Option (List RcOption) :=
  (ro.find? (fun kv => kv.1 = k)).map (fun kv => kv.2)

/-- Character constants used by the embedded text utilities. -/
def escChar : Char := Char.ofNat 92

def nlChar : Char := Char.ofNat 10

def crChar : Char := Char.ofNat 13

def hashChar : Char := Char.ofNat 35

def squoteChar : Char := Char.ofNat 39

def dquoteChar : Char := Char.ofNat 34

/-- Modelled from the spec: removal of every occurrence of a two-character
pattern, left to right (`blaze_util::Replace(pat, "", &contents)` with a
two-byte pattern; `blaze_util` is not part of the excerpt). -/
def removeSub2 (a b : Char) : List Char → List Char
  | [] => []
  | [c] => [c]
  | c :: d :: rest =>
    if c = a ∧ d = b then removeSub2 a b rest
    else c :: removeSub2 a b (d :: rest)

/-- Modelled from the spec: removal of every occurrence of a three-character
pattern, left to right (`blaze_util::Replace` with a three-byte pattern). -/
def removeSub3 (a b c : Char) : List Char → List Char
  | [] => []
  | [x] => [x]
  | [x, y] => [x, y]
  | x :: y :: z :: rest =>
    if x = a ∧ y = b ∧ z = c then removeSub3 a b c rest
    else x :: removeSub3 a b c (y :: z :: rest)

/-- Modelled from the spec: split a character list at a separator
(`blaze_util::Split` at newlines). -/
def splitChar (sep : Char) : List Char → List (List Char)
  | [] => [[]]
  | a :: rest =>
    match splitChar sep rest with
    | [] => [[]]
    | w :: ws => if a = sep then [] :: w :: ws else (a :: w) :: ws

/-- Line splitting of `RcFile::Parse`: the line-continuation sequences
`"\\\r\n"` and `"\\\n"` are removed, then the contents are split at newlines. -/
def toLines (contents : String) : List String :=
  (splitChar nlChar
      (removeSub2 escChar nlChar
        (removeSub3 escChar crChar nlChar contents.data))).map List.asString

/-- Modelled from the spec: strip leading and trailing whitespace
(`blaze_util::StripWhitespace`). -/
def stripWhitespace (s : String) : String :=
  (((s.data.dropWhile Char.isWhitespace).reverse.dropWhile Char.isWhitespace).reverse).asString

/-- Modelled from the spec: tokenizer for one logical line
(`blaze_util::Tokenize(line, comment, &words)`).  Everything from an unquoted
comment character to the end of the line is discarded; single- and
double-quoted regions are literal; the escape character removes the special
meaning of the following character; unterminated quotes and a trailing escape
are tolerated silently. -/
def tokenizeAux (comment : Char) : List Char → Option Char → List Char → List String → List String
  | [], _, cur, acc => if cur = [] then acc else acc ++ [cur.asString]
  | c :: rest, q, cur, acc =>
    if c = escChar then
      match rest with
      | [] => if cur = [] then acc else acc ++ [cur.asString]
      | d :: rest2 => tokenizeAux comment rest2 q (cur ++ [d]) acc
    else
      match q with
      | some qc =>
        if c = qc then tokenizeAux comment rest none cur acc
        else tokenizeAux comment rest (some qc) (cur ++ [c]) acc
      | none =>
        if c = comment then if cur = [] then acc else acc ++ [cur.asString]
        else if c = squoteChar ∨ c = dquoteChar then tokenizeAux comment rest (some c) cur acc
        else if c.isWhitespace then
          if cur = [] then tokenizeAux comment rest none [] acc
          else tokenizeAux comment rest none [] (acc ++ [cur.asString])
        else tokenizeAux comment rest none (cur ++ [c]) acc

/-- Tokenization as invoked by `RcFile::Parse`: the comment character is `#`. -/
def tokenizeLine (line : String) : List String :=
  tokenizeAux hashChar line.data none [] []

/-- The fatal-error classes raised by `RcFile::Parse` via `die`. -/
inductive ParseError where
  /-- Class `INTERNAL_ERROR`: a file previously checked readable could not be read. -/
  | unexpectedReadError (filename : String)
  /-- Class `BAD_ARGV`: an `import` line whose word count is not exactly two;
  carries the file and the (whitespace-stripped) offending line. -/
  | invalidImport (filename : String) (line : String)
  /-- Class `BAD_ARGV`: an import cycle; carries the import stack in traversal order
  (the chain whose entries the error message enumerates). -/
  | importLoop (chain : List String)
deriving Repr, DecidableEq

/-- The error message built for `importLoop`: the source emits
`"Import loop detected:\n"` followed by one indented line per stack entry, in
stack (traversal) order. -/
def importLoopMessage (chain : List String) : String :=
  "Import loop detected:\n" ++ String.join (chain.map (fun f => "  " ++ f ++ "\n"))

/-- Decidable equality for `Except`, used to evaluate concrete parse results. -/
instance {e a : Type} [DecidableEq e] [DecidableEq a] : DecidableEq (Except e a) := fun x y =>
  match x, y with
  | .ok u, .ok v =>
    if h : u = v then isTrue (by rw [h]) else isFalse (by intro he; cases he; exact h rfl)
  | .error u, .error v =>
    if h : u = v then isTrue (by rw [h]) else isFalse (by intro he; cases he; exact h rfl)
  | .ok _, .error _ => isFalse (by intro he; cases he)
  | .error _, .ok _ => isFalse (by intro he; cases he)

mutual

/-- Embedding of `RcFile::Parse(filename, index, rcfiles, rcoptions, import_stack)`.  The
filesystem `fs` maps a filename to its contents when readable.  `fuel` bounds
the recursion depth; `none` means the fuel was exhausted. -/
def parseFile (fs : String → Option String) (fuel : Nat) (filename : String) (index : Nat)
    (rcfiles : List RcFile) (ro : RcOptions) (stack : List String) :
    Option (Except ParseError (List RcFile × RcOptions)) :=
  match fuel with
  | 0 => none
  | f + 1 =>
    match fs filename with
    | none => some (.error (.unexpectedReadError filename))
    | some contents => parseLines fs f filename index (toLines contents) rcfiles ro stack
termination_by structural fuel

/-- The per-line loop of `RcFile::Parse`, one call per remaining line.  The
informational stderr summary of `startup` options read (lines 130-135) is
purely observational and not part of the state, so it is not modelled. -/
def parseLines (fs : String → Option String) (fuel : Nat) (filename : String) (index : Nat)
    (lines : List String) (rcfiles : List RcFile) (ro : RcOptions) (stack : List String) :
    Option (Except ParseError (List RcFile × RcOptions)) :=
  match fuel with
  | 0 => none
  | f + 1 =>
    match lines with
    | [] => some (.ok (rcfiles, ro))
    | line :: rest =>
      if stripWhitespace line = "" then parseLines fs f filename index rest rcfiles ro stack
      else
        match tokenizeLine (stripWhitespace line) with
        | [] => parseLines fs f filename index rest rcfiles ro stack
        | command :: ws =>
          if command = "import" then
            match ws with
            | [target] =>
              if stack.contains target then some (.error (.importLoop stack))
              else
                match parseFile fs f target rcfiles.length
                    (rcfiles ++ [⟨target, rcfiles.length⟩]) ro (stack ++ [target]) with
                | none => none
                | some (.error e) => some (.error e)
                | some (.ok (rcfiles2, ro2)) =>
                  parseLines fs f filename index rest rcfiles2 ro2 stack
            | _ => some (.error (.invalidImport filename (stripWhitespace line)))
          else
            parseLines fs f filename index rest rcfiles
              (ws.foldl (fun acc w => insertRcOption acc command ⟨index, w⟩) ro) stack
termination_by structural fuel
end

/-- The public `RcFile::Parse(rcfiles, rcoptions)`: the initial import stack
holds exactly the path of the root file as given. -/
def rcFileParseTop (fs : String → Option String) (fuel : Nat) (f : RcFile)
    (rcfiles : List RcFile) (ro : RcOptions) :
    Option (Except ParseError (List RcFile × RcOptions)) :=
  parseFile fs fuel f.filename f.index rcfiles ro [f.filename]

/-- Predicate `IsArg` (option_processor.cc line 266): a token counts as a startup flag
when it starts with a dash and is none of the reserved help aliases. -/
def IsArg (arg : String) : Bool :=
  "-".data.isPrefixOf arg.data && !(arg = "--help") && !(arg = "-help") && !(arg = "-h")

/-- One invocation of `BlazeStartupOptions::ProcessArg(arg, next_arg, rcfile)`,
recorded in call order.  `rcfile` is the empty string exactly when the token
came from the command line. -/
structure AppCall where
  arg : String
  next : String
  rcfile : String
deriving Repr, DecidableEq

/-- Accessor `blazercs_[i].Filename()`; indices produced by parsing are always in range,
out-of-range access (undefined behaviour in the source) is mapped to `""`. -/
def blazercFilename (bl : List RcFile) (i : Nat) : String :=
  ((bl.get? i).map RcFile.filename).getD ""

/-- First half of `OptionProcessor::ParseStartupOptions` (lines 272-295): the
loop over the collected `"startup"` option entries.  `ProcessArg` is factored
into the syntactic decision `d arg next` — true exactly when `arg` is a unary
option consuming `next` as its value, which per the header contract depends
only on the tokens — and the recorded call list.  All but the last entry are
probed with the following entry as candidate value; the final entry is applied
with an empty `next` only when it looks like a flag (`IsArg`).  A present
`"startup"` key always maps to a non-empty vector (`operator[]` is only
reached when a line has at least one word after its keyword), so the unsigned
underflow of `size() - 1` on an empty vector is unreachable; the empty case
here simply yields no calls. -/
def processRcStartupCalls (d : String → String → Bool) (bl : List RcFile) :
    List RcOption → List AppCall
  | [] => []
  | [o] =>
    if IsArg o.option then [⟨o.option, "", blazercFilename bl o.rcfile_index⟩] else []
  | o1 :: o2 :: rest =>
    ⟨o1.option, o2.option, blazercFilename bl o1.rcfile_index⟩ ::
      (if d o1.option o2.option then processRcStartupCalls d bl rest
       else processRcStartupCalls d bl (o2 :: rest))

/-- Second half of `OptionProcessor::ParseStartupOptions` (lines 297-311): the
scan of literal command-line tokens starting at index 1, stopping at the first
non-flag token.  Returns the recorded calls and the number of consumed tokens
(the final `startup_args_`). -/
def processCmdArgsCalls (d : String → String → Bool) : List String → List AppCall × Nat
  | [] => ([], 0)
  | [a] => if IsArg a then ([⟨a, "", ""⟩], 1) else ([], 0)
  | a :: b :: rest =>
    if IsArg a then
      if d a b then
        let r := processCmdArgsCalls d rest
        (⟨a, b, ""⟩ :: r.1, r.2 + 2)
      else
        let r := processCmdArgsCalls d (b :: rest)
        (⟨a, b, ""⟩ :: r.1, r.2 + 1)
    else ([], 0)

/-- Embedding of `OptionProcessor::ParseStartupOptions`, as the ordered list of `ProcessArg`
invocations it performs plus the resulting `startup_args_` count: first the
`"startup"` option entries from the configuration files, then the literal
command-line tokens. -/
def parseStartupCalls (d : String → String → Bool) (bl : List RcFile) (ro : RcOptions)
    (args : List String) : List AppCall × Nat :=
  let rcCalls :=
    match lookupRcOptions ro "startup" with
    | some l => processRcStartupCalls d bl l
    | none => []
  let cmd := processCmdArgsCalls d (args.drop 1)
  (rcCalls ++ cmd.1, cmd.2)

/-- The `startup_args_` value computed by `ParseStartupOptions`. -/
def startupArgsCount (d : String → String → Bool) (args : List String) : Nat :=
  (processCmdArgsCalls d (args.drop 1)).2

/-- Modelled from the spec: the progressively populated startup-option state,
reduced to origin tracking — applying a call records, for the logical option
named by `nm` of its token, the `rcfile` origin of that call, later
applications overriding earlier ones (`ProcessArg` and `option_sources` are
not part of the excerpt). -/
def applyOrigins (nm : String → String) (calls : List AppCall) (k : String) : Option String :=
  calls.foldl (fun acc c => if nm c.arg = k then some c.rcfile else acc) none

/-- Command determination of `OptionProcessor::ParseOptions` (lines 241-252):
`startup_args_ + 1 >= args.size()` yields the explicit no-command result
(`none` here, `command_ = ""` plus early return in the source); otherwise the
command is the token after the boundary and the trailing arguments are
everything after it. -/
def determineCommand (d : String → String → Bool) (args : List String) :
    Option (String × List String) :=
  let k := startupArgsCount d args
  if args.length ≤ k + 1 then none
  else some (args.getD (k + 1) "", args.drop (k + 2))

/-- The fatal error of `OptionProcessor::FindUserBlazerc`: an explicitly given
rc file that is not readable (`BAD_ARGV`). -/
inductive UserRcError where
  | unreadableRc (path : String)
deriving Repr, DecidableEq

/-- Embedding of `OptionProcessor::FindUserBlazerc` (lines 166-192).  `readable` models
`access(path, R_OK) == 0`; `mkAbs` models `MakeAbsolute`; `joinPath` models
`blaze_util::JoinPath`; `home` models `getenv("HOME")`.  The empty string
result means no user rc file was found. -/
def findUserBlazerc (readable : String → Bool) (mkAbs : String → String)
    (joinPath : String → String → String) (home : Option String)
    (cmdLineRcFile : Option String) (workspace : String) : Except UserRcError String :=
  match cmdLineRcFile with
  | some p =>
    if readable (mkAbs p) then .ok (mkAbs p)
    else .error (.unreadableRc (mkAbs p))
  | none =>
    if readable (joinPath workspace ".blazerc") then .ok (joinPath workspace ".blazerc")
    else
      match home with
      | none => .ok ""
      | some h =>
        if readable (joinPath h ".blazerc") then .ok (joinPath h ".blazerc")
        else .ok ""

/-- Modelled from the spec: `blaze_util::GetUnaryOption` — recognizes
`--key value` (value in the following token, which may be absent) and
`--key=value` (inline value). -/
def getUnaryOption (arg : String) (next : Option String) (key : String) : Option String :=
  if arg = key then next
  else if (key ++ "=").data.isPrefixOf arg.data then
    some ((arg.data.drop (key.data.length + 1)).asString)
  else none

/-- Modelled from the spec: `blaze_util::GetNullaryOption` — an exact match. -/
def getNullaryOption (arg key : String) : Bool := arg = key

/-- The body of the pre-scan loop of `OptionProcessor::ParseOptions` (lines
205-217), one call per examined token: the first successful `--blazerc`
extraction wins, and any `--nomaster_blazerc` occurrence clears
`use_master_blazerc` permanently. -/
def rcFileScanAux : List String → Option String × Bool → Option String × Bool
  | [], acc => acc
  | a :: rest, acc =>
    let bz := if acc.1 = none then getUnaryOption a rest.head? "--blazerc" else acc.1
    let um := if acc.2 && getNullaryOption a "--nomaster_blazerc" then false else acc.2
    rcFileScanAux rest (bz, um)

/-- The pre-scan of `OptionProcessor::ParseOptions`: every token from index 1
to the end of the argument vector is examined. -/
def rcFileScan (args : List String) : Option String × Bool :=
  rcFileScanAux (args.drop 1) (none, true)

/-- The `--rc_source=` entries of `AddRcfileArgsAndOptions` (lines 320-323):
one per discovered file, in index order. -/
def rcSourceArgs (bl : List RcFile) : List String :=
  bl.map (fun f => "--rc_source=" ++ f.filename)

/-- The `--default_override=` entries of `AddRcfileArgsAndOptions` (lines
326-339): the option map is walked in its (sorted) iteration order, the
`"startup"` keyword is skipped, and each remaining entry is encoded with its
origin index, keyword and raw text. -/
def defaultOverrideArgs : RcOptions → List String
  | [] => []
  | (k, os) :: rest =>
    (if k = "startup" then []
     else os.map (fun o =>
       "--default_override=" ++ (toString o.rcfile_index ++ ":" ++ k ++ "=" ++ o.option)))
      ++ defaultOverrideArgs rest

/-- Embedding of `OptionProcessor::AddRcfileArgsAndOptions(batch, cwd)` (lines 318-361), as
the list of arguments it appends to `command_arguments_`.  `isatty` models
`IsStandardTerminal()`, `terminalColumns` models `GetTerminalColumns()`, `env`
models the inherited `environ` snapshot, and `emacsEnv` models
`getenv("EMACS")`. -/
def addRcfileArgsAndOptions (batch : Bool) (cwd : String) (bl : List RcFile) (ro : RcOptions)
    (isatty : Bool) (terminalColumns : Int) (env : List String) (emacsEnv : Option String) :
    List String :=
  rcSourceArgs bl
    ++ defaultOverrideArgs ro
    ++ ["--isatty=" ++ toString (cond isatty 1 0),
        "--terminal_columns=" ++ toString terminalColumns]
    ++ (if batch then ["--ignore_client_env"]
        else env.map (fun e => "--client_env=" ++ e))
    ++ ["--client_cwd=" ++ cwd]
    ++ (if emacsEnv = some "t" then ["--emacs"] else [])

/-- Boolean string-prefix test used to classify emitted argument strings. -/
def beginsWith (p s : String) : Bool := p.data.isPrefixOf s.data

/-! ### Helper lemmas -/

theorem tokenizeLine_empty : tokenizeLine "" = [] := rfl

theorem rcFileScanAux_false (l : List String) :
    ∀ bz, (rcFileScanAux l (bz, false)).2 = false := by
  induction l with
  | nil => intro bz; rfl
  | cons a rest ih =>
    intro bz
    simp only [rcFileScanAux, Bool.false_and, if_neg]
    exact ih _

theorem rcFileScanAux_mem (l : List String) :
    ∀ bz um, "--nomaster_blazerc" ∈ l → (rcFileScanAux l (bz, um)).2 = false := by
  induction l with
  | nil => intro _ _ h; cases h
  | cons a rest ih =>
    intro bz um h
    rcases List.mem_cons.mp h with h1 | h2
    · subst h1
      simp only [rcFileScanAux, getNullaryOption]
      cases um with
      | false => simpa using rcFileScanAux_false rest _
      | true => simpa using rcFileScanAux_false rest _
    · simp only [rcFileScanAux]
      split <;> exact ih _ _ h2

/-! ### Claim theorems -/

/-- C2: when the parser reaches an `import` line whose target is already on
the import stack, resolution fails fatally with the import-loop error carrying
full import stack (the chain the message enumerates) in traversal order, and
no further lines are parsed — the result does not depend on the remaining
lines or on the filesystem.  The second and third conjuncts instantiate this
for a mutually-importing pair and for a self-importing file, run from the
public entry point. -/
theorem parse_import_cycle_fails (fs : String → Option String) (fuel : Nat)
    (filename : String) (index : Nat) (line : String) (rest : List String)
    (rcfiles : List RcFile) (ro : RcOptions) (stack : List String) (target : String)
    (htok : tokenizeLine (stripWhitespace line) = ["import", target])
    (hmem : stack.contains target = true) :
    parseLines fs (fuel + 1) filename index (line :: rest) rcfiles ro stack
        = some (.error (.importLoop stack)) ∧
    rcFileParseTop
        (fun f => if f = "/a" then some "import /b"
          else if f = "/b" then some "import /a" else none)
        10 ⟨"/a", 0⟩ [⟨"/a", 0⟩] []
      = some (.error (.importLoop ["/a", "/b"])) ∧
    rcFileParseTop (fun f => if f = "/s" then some "import /s" else none)
        10 ⟨"/s", 0⟩ [⟨"/s", 0⟩] []
      = some (.error (.importLoop ["/s"])) := by
  refine ⟨?_, by decide, by decide⟩
  have hne : ¬ stripWhitespace line = "" := by
    intro h0
    rw [h0, tokenizeLine_empty] at htok
    cases htok
  simp only [parseLines, if_neg hne, htok, hmem, if_pos rfl, reduceCtorEq, if_true]

/-- C2 witness: a concrete import line whose target is on the stack fails with
the loop error carrying the whole stack. -/
theorem parse_import_cycle_fails_witness :
    parseLines (fun _ => none) 7 "/b" 1 ["import /a"] [⟨"/a", 0⟩, ⟨"/b", 1⟩] [] ["/a", "/b"]
      = some (.error (.importLoop ["/a", "/b"])) :=
  (parse_import_cycle_fails (fun _ => none) 6 "/b" 1 "import /a" [] [⟨"/a", 0⟩, ⟨"/b", 1⟩]
    [] ["/a", "/b"] "/a" (by decide) (by decide)).1

/-- C7: an `import` line tokenizing to any word count other than two (the
keyword plus exactly one path) makes resolution fail fatally with the
invalid-import error, independently of the remaining lines and the
filesystem. -/
theorem import_wordcount_error (fs : String → Option String) (fuel : Nat)
    (filename : String) (index : Nat) (line : String) (rest : List String)
    (rcfiles : List RcFile) (ro : RcOptions) (stack : List String) (ws : List String)
    (htok : tokenizeLine (stripWhitespace line) = "import" :: ws)
    (hlen : ws.length ≠ 1) :
    parseLines fs (fuel + 1) filename index (line :: rest) rcfiles ro stack
      = some (.error (.invalidImport filename (stripWhitespace line))) := by
  have hne : ¬ stripWhitespace line = "" := by
    intro h0
    rw [h0, tokenizeLine_empty] at htok
    cases htok
  match ws, hlen with
  | [], _ =>
    simp only [parseLines, if_neg hne, htok, if_pos rfl, if_true]
  | w1 :: w2 :: ws2, _ =>
    simp only [parseLines, if_neg hne, htok, if_pos rfl, if_true]
  | [w1], h1 => exact absurd rfl h1

/-- C7 witness: a bare `import` line (no path) is a fatal invalid-import
error. -/
theorem import_wordcount_error_witness :
    parseLines (fun _ => none) 4 "/r" 0 ["import"] [⟨"/r", 0⟩] [] ["/r"]
      = some (.error (.invalidImport "/r" "import")) :=
  import_wordcount_error (fun _ => none) 3 "/r" 0 "import" [] [⟨"/r", 0⟩] [] ["/r"] []
    (by decide) (by decide)

/-- C9: cycle detection compares the imported path as a literal string against
the import stack, whose initial content is exactly the path of the root file
as given.  First conjunct: importing the root under its exact original spelling
fails deeper in the tree, with the chain in traversal order.  Second conjunct:
a file whose parse already completed (and was popped from the stack) can be
re-imported successfully and is re-parsed, appearing twice with fresh indices.
Third conjunct: a different path spelling (here `./r`, which may denote the
same physical file as `/r`) is not detected as a cycle. -/
theorem import_stack_literal_comparison :
    rcFileParseTop
        (fun f => if f = "/r" then some "import /m"
          else if f = "/m" then some "import /r" else none)
        10 ⟨"/r", 0⟩ [⟨"/r", 0⟩] []
      = some (.error (.importLoop ["/r", "/m"])) ∧
    rcFileParseTop
        (fun f => if f = "/r" then some "import /c\nimport /c"
          else if f = "/c" then some "x --a" else none)
        10 ⟨"/r", 0⟩ [⟨"/r", 0⟩] []
      = some (.ok ([⟨"/r", 0⟩, ⟨"/c", 1⟩, ⟨"/c", 2⟩], [("x", [⟨1, "--a"⟩, ⟨2, "--a"⟩])])) ∧
    rcFileParseTop
        (fun f => if f = "/r" then some "import ./r"
          else if f = "./r" then some "y --b" else none)
        10 ⟨"/r", 0⟩ [⟨"/r", 0⟩] []
      = some (.ok ([⟨"/r", 0⟩, ⟨"./r", 1⟩], [("y", [⟨1, "--b"⟩])])) := by
  refine ⟨by decide, by decide, by decide⟩

/-- C4: the number of command-line tokens classified as startup tokens is the
boundary; the result is the explicit no-command value exactly when no token
follows the boundary, and otherwise the command is the token after the
boundary with everything later as trailing arguments.  The second conjunct is
the concrete case `["launcher", "--batch", "build", "--flag"]` with `--batch`
nullary: command `"build"`, trailing arguments `["--flag"]`. -/
theorem command_boundary_detection (d : String → String → Bool) (args : List String) :
    (determineCommand d args = none ↔ args.length ≤ startupArgsCount d args + 1) ∧
    determineCommand (fun _ _ => false) ["launcher", "--batch", "build", "--flag"]
      = some ("build", ["--flag"]) := by
  refine ⟨?_, by decide⟩
  unfold determineCommand
  dsimp only
  split
  · simp_all
  · simp_all

/-- C8: user-level rc discovery.  With an explicit override path, that path
(made absolute) is returned, and an unreadable explicit path is the fatal
user-input error.  Without one: the workspace dotfile if readable, else the
home dotfile if readable, else the empty (no-file) result — and the
non-explicit cases never produce an error. -/
theorem findUserBlazerc_cases (readable : String → Bool) (mkAbs : String → String)
    (joinPath : String → String → String) (home : Option String) (p workspace : String) :
    (findUserBlazerc readable mkAbs joinPath home (some p) workspace
        = if readable (mkAbs p) then .ok (mkAbs p) else .error (.unreadableRc (mkAbs p))) ∧
    (readable (joinPath workspace ".blazerc") = true →
      findUserBlazerc readable mkAbs joinPath home none workspace
        = .ok (joinPath workspace ".blazerc")) ∧
    (readable (joinPath workspace ".blazerc") = false → home = none →
      findUserBlazerc readable mkAbs joinPath home none workspace = .ok "") ∧
    (∀ h, readable (joinPath workspace ".blazerc") = false → home = some h →
      readable (joinPath h ".blazerc") = true →
      findUserBlazerc readable mkAbs joinPath home none workspace
        = .ok (joinPath h ".blazerc")) ∧
    (∀ h, readable (joinPath workspace ".blazerc") = false → home = some h →
      readable (joinPath h ".blazerc") = false →
      findUserBlazerc readable mkAbs joinPath home none workspace = .ok "") ∧
    (∀ e, findUserBlazerc readable mkAbs joinPath home none workspace ≠ .error e) := by
  refine ⟨?_, ?_, ?_, ?_, ?_, ?_⟩
  · simp only [findUserBlazerc]
  · intro h1
    simp [findUserBlazerc, h1]
  · intro h1 h2
    subst h2
    simp [findUserBlazerc, h1]
  · intro h h1 h2 h3
    subst h2
    simp [findUserBlazerc, h1, h3]
  · intro h h1 h2 h3
    subst h2
    simp [findUserBlazerc, h1, h3]
  · intro e he
    simp only [findUserBlazerc] at he
    split at he
    · cases he
    · cases home with
      | none => cases he
      | some h =>
        dsimp only at he
        split at he
        · cases he
        · cases he

/-- C8 witness: with no explicit path, no readable candidate and no home
directory, discovery returns the empty result without an error. -/
theorem findUserBlazerc_cases_witness :
    findUserBlazerc (fun _ => false) (fun x => x) (fun a b => a ++ "/" ++ b)
      none none "/w" = .ok "" :=
  (findUserBlazerc_cases (fun _ => false) (fun x => x) (fun a b => a ++ "/" ++ b)
    none "x" "/w").2.2.1 rfl rfl

/-- C10: the pre-scan for `--blazerc` and `--nomaster_blazerc` examines every
token from index 1 to the end of the argument vector.  First conjunct: a
`--nomaster_blazerc` anywhere after index 0 disables the shared file.  Second
conjunct: a `--blazerc` placed after the command name and its arguments is
still honoured.  Third conjunct: the first `--blazerc` occurrence wins. -/
theorem rcfile_scan_whole_argv (args : List String)
    (h : "--nomaster_blazerc" ∈ args.drop 1) :
    (rcFileScan args).2 = false ∧
    rcFileScan ["launcher", "build", "target", "--blazerc", "/x"] = (some "/x", true) ∧
    rcFileScan ["launcher", "--blazerc", "/a", "--blazerc", "/b", "build"]
      = (some "/a", true) := by
  refine ⟨rcFileScanAux_mem _ _ _ h, by decide, by decide⟩

/-- C10 witness: a `--nomaster_blazerc` after the command name still disables
the shared configuration file. -/
theorem rcfile_scan_whole_argv_witness :
    (rcFileScan ["launcher", "build", "--nomaster_blazerc"]).2 = false :=
  (rcfile_scan_whole_argv ["launcher", "build", "--nomaster_blazerc"] (by decide)).1

theorem processRcStartupCalls_args_sublist (d : String → String → Bool) (bl : List RcFile) :
    ∀ n (l : List RcOption), l.length ≤ n →
      ((processRcStartupCalls d bl l).map (fun c => c.arg)).Sublist
        (l.map (fun o => o.option)) := by
  intro n
  induction n with
  | zero =>
    intro l hl
    have h0 : l = [] := List.eq_nil_of_length_eq_zero (Nat.le_zero.mp hl)
    subst h0
    simp [processRcStartupCalls]
  | succ n ih =>
    intro l hl
    match l with
    | [] => simp [processRcStartupCalls]
    | [o] =>
      simp only [processRcStartupCalls]
      split
      · simp
      · simp
    | o1 :: o2 :: rest =>
      by_cases hd : d o1.option o2.option
      · simp only [processRcStartupCalls, hd, if_true, List.map_cons]
        refine List.Sublist.cons₂ _ (List.Sublist.cons _ ?_)
        exact ih rest (by simp only [List.length_cons] at hl; omega)
      · simp only [processRcStartupCalls, hd, if_false, List.map_cons]
        refine List.Sublist.cons₂ _ ?_
        have := ih (o2 :: rest) (by simp only [List.length_cons] at hl ⊢; omega)
        simpa using this

theorem processCmdArgsCalls_origin (d : String → String → Bool) :
    ∀ n (l : List String), l.length ≤ n →
      ∀ c ∈ (processCmdArgsCalls d l).1, c.rcfile = "" := by
  intro n
  induction n with
  | zero =>
    intro l hl
    have h0 : l = [] := List.eq_nil_of_length_eq_zero (Nat.le_zero.mp hl)
    subst h0
    intro c hc
    cases hc
  | succ n ih =>
    intro l hl
    match l with
    | [] => intro c hc; cases hc
    | [a] =>
      intro c hc
      simp only [processCmdArgsCalls] at hc
      split at hc
      · simp only [List.mem_singleton] at hc
        subst hc
        rfl
      · cases hc
    | a :: b :: rest =>
      intro c hc
      simp only [processCmdArgsCalls] at hc
      split at hc
      · split at hc
        · rcases List.mem_cons.mp hc with hc2 | hc2
          · subst hc2
            rfl
          · exact ih rest (by simp only [List.length_cons] at hl; omega) c hc2
        · rcases List.mem_cons.mp hc with hc2 | hc2
          · subst hc2
            rfl
          · exact ih (b :: rest)
              (by simp only [List.length_cons] at hl ⊢; omega) c hc2
      · cases hc

theorem applyOrigins_not_mem (nm : String → String) (k : String) (calls : List AppCall) :
    ∀ acc : Option String,
      k ∉ calls.map (fun c => nm c.arg) →
      calls.foldl (fun acc c => if nm c.arg = k then some c.rcfile else acc) acc = acc := by
  induction calls with
  | nil => intro acc _; rfl
  | cons c rest ih =>
    intro acc h
    simp only [List.map_cons, List.mem_cons, not_or] at h
    have hne : ¬ (nm c.arg = k) := fun he => h.1 he.symm
    simp only [List.foldl_cons, if_neg hne]
    exact ih _ h.2

theorem applyOrigins_mem_override (nm : String → String) (k : String) (calls : List AppCall) :
    ∀ acc : Option String,
      k ∈ calls.map (fun c => nm c.arg) →
      (∀ c ∈ calls, c.rcfile = "") →
      calls.foldl (fun acc c => if nm c.arg = k then some c.rcfile else acc) acc = some "" := by
  induction calls with
  | nil => intro acc h _; cases h
  | cons c rest ih =>
    intro acc hmem hrc
    by_cases hk : k ∈ rest.map (fun x => nm x.arg)
    · simp only [List.foldl_cons]
      exact ih _ hk (fun x hx => hrc x (List.mem_cons_of_mem _ hx))
    · have h1 : nm c.arg = k := by
        rw [List.map_cons] at hmem
        rcases List.mem_cons.mp hmem with h | h
        · exact h.symm
        · exact absurd h hk
      simp only [List.foldl_cons, if_pos h1]
      rw [applyOrigins_not_mem nm k rest _ hk, hrc c (List.mem_cons_self c rest)]

/-- C1: in the startup-option merge, the arguments applied from
configuration-file `"startup"` entries follow collection order (they form a
sublist of the entry texts in order); every command-line application carries
the command-line origin (empty `rcfile`); the full call sequence is all
configuration-file calls followed by all command-line calls, so an option also
applied from the command line ends with the command-line origin — the
command-line application happens later and overrides.  The final conjunct is
the concrete order check: entries `[A, B]` from file 0 and `[C]` from file 1
are applied as `A, B, C`, then the literal command-line tokens. -/
theorem startup_merge_cmdline_overrides (d : String → String → Bool) (nm : String → String)
    (bl : List RcFile) (ro : RcOptions) (args : List String) (l : List RcOption) (k : String)
    (h : k ∈ (processCmdArgsCalls d (args.drop 1)).1.map (fun c => nm c.arg)) :
    ((processRcStartupCalls d bl l).map (fun c => c.arg)).Sublist
        (l.map (fun o => o.option)) ∧
    (∀ c ∈ (processCmdArgsCalls d (args.drop 1)).1, c.rcfile = "") ∧
    applyOrigins nm (parseStartupCalls d bl ro args).1 k = some "" ∧
    parseStartupCalls (fun _ _ => false) [⟨"f0", 0⟩, ⟨"f1", 1⟩]
        [("startup", [⟨0, "--a"⟩, ⟨0, "--b"⟩, ⟨1, "--c"⟩])] ["launcher", "--d", "build"]
      = ([⟨"--a", "--b", "f0"⟩, ⟨"--b", "--c", "f0"⟩, ⟨"--c", "", "f1"⟩,
          ⟨"--d", "build", ""⟩], 1) := by
  have hrc := processCmdArgsCalls_origin d (args.drop 1).length (args.drop 1) le_rfl
  refine ⟨processRcStartupCalls_args_sublist d bl l.length l le_rfl, hrc, ?_, by decide⟩
  unfold parseStartupCalls applyOrigins
  dsimp only
  rw [List.foldl_append]
  exact applyOrigins_mem_override nm k _ _ h hrc

/-- C1 witness: with nullary options, an option applied both from a
configuration file and from the command line ends with the command-line
origin. -/
theorem startup_merge_cmdline_overrides_witness :
    applyOrigins (fun s => s)
      (parseStartupCalls (fun _ _ => false) [⟨"f0", 0⟩, ⟨"f1", 1⟩]
        [("startup", [⟨0, "--a"⟩, ⟨0, "--b"⟩, ⟨1, "--c"⟩])] ["launcher", "--a", "build"]).1
      "--a" = some "" :=
  (startup_merge_cmdline_overrides (fun _ _ => false) (fun s => s) [⟨"f0", 0⟩, ⟨"f1", 1⟩]
    [("startup", [⟨0, "--a"⟩, ⟨0, "--b"⟩, ⟨1, "--c"⟩])] ["launcher", "--a", "build"]
    [⟨0, "--a"⟩, ⟨0, "--b"⟩, ⟨1, "--c"⟩] "--a" (by decide)).2.2.1

theorem string_data_append (s t : String) : (s ++ t).data = s.data ++ t.data := by
  cases s
  cases t
  rfl

theorem string_eq_of_data (s t : String) (h : s.data = t.data) : s = t :=
  congrArg String.mk h

theorem beginsWith_eq_true (p s : String) : beginsWith p s = true ↔ p.data <+: s.data := by
  rw [beginsWith]
  exact List.isPrefixOf_iff_prefix

theorem beginsWith_eq_false (p s : String) : beginsWith p s = false ↔ ¬ p.data <+: s.data := by
  rw [Bool.eq_false_iff, Ne]
  exact not_congr (beginsWith_eq_true p s)

theorem beginsWith_append (p s : String) : beginsWith p (p ++ s) = true := by
  rw [beginsWith_eq_true, string_data_append]
  exact List.prefix_append _ _

theorem beginsWith_append_disjoint (p q s : String) (hpq : beginsWith p q = false)
    (hqp : beginsWith q p = false) : beginsWith p (q ++ s) = false := by
  rw [beginsWith_eq_false] at hpq hqp ⊢
  rw [string_data_append]
  intro h1
  rcases List.prefix_or_prefix_of_prefix h1 (List.prefix_append _ _) with h3 | h3
  · exact hpq h3
  · exact hqp h3

theorem append_ne_of_beginsWith_false (p t s : String) (h : beginsWith p t = false) :
    p ++ s ≠ t := by
  intro he
  rw [← he, beginsWith_append] at h
  cases h

theorem mem_rcSourceArgs (bl : List RcFile) (s : String) (hs : s ∈ rcSourceArgs bl) :
    ∃ t, s = "--rc_source=" ++ t := by
  rcases List.mem_map.mp hs with ⟨f, _, hf⟩
  exact ⟨f.filename, hf.symm⟩

theorem mem_defaultOverrideArgs (ro : RcOptions) (s : String)
    (hs : s ∈ defaultOverrideArgs ro) : ∃ t, s = "--default_override=" ++ t := by
  induction ro with
  | nil => cases hs
  | cons kv rest ih =>
    obtain ⟨k, os⟩ := kv
    simp only [defaultOverrideArgs] at hs
    rcases List.mem_append.mp hs with h1 | h1
    · split at h1
      · cases h1
      · rcases List.mem_map.mp h1 with ⟨o, _, ho⟩
        exact ⟨_, ho.symm⟩
    · exact ih h1

/-- C6: among the arguments built by `AddRcfileArgsAndOptions`, the entries of
the `--rc_source=` form are exactly one per discovered configuration file, in
discovery (index) order, whatever options the files contributed. -/
theorem rc_source_one_per_file (batch : Bool) (cwd : String) (bl : List RcFile)
    (ro : RcOptions) (isatty : Bool) (cols : Int) (env : List String)
    (emacsEnv : Option String) :
    (addRcfileArgsAndOptions batch cwd bl ro isatty cols env emacsEnv).filter
        (fun s => beginsWith "--rc_source=" s)
      = bl.map (fun f => "--rc_source=" ++ f.filename) := by
  have h1 : (rcSourceArgs bl).filter (fun s => beginsWith "--rc_source=" s)
      = bl.map (fun f => "--rc_source=" ++ f.filename) := by
    rw [List.filter_eq_self.mpr]
    · rfl
    · intro a ha
      rcases mem_rcSourceArgs bl a ha with ⟨t, ht⟩
      rw [ht]
      simp [beginsWith_append]
  have h2 : (defaultOverrideArgs ro).filter (fun s => beginsWith "--rc_source=" s) = [] := by
    rw [List.filter_eq_nil_iff]
    intro a ha
    rcases mem_defaultOverrideArgs ro a ha with ⟨t, ht⟩
    rw [ht]
    simp [beginsWith_append_disjoint "--rc_source=" "--default_override=" t
      (by decide) (by decide)]
  have h3 : (["--isatty=" ++ toString (cond isatty 1 0),
      "--terminal_columns=" ++ toString cols]).filter
        (fun s => beginsWith "--rc_source=" s) = [] := by
    rw [List.filter_eq_nil_iff]
    intro a ha
    rcases List.mem_cons.mp ha with h | h
    · rw [h]
      simp [beginsWith_append_disjoint "--rc_source=" "--isatty="
        (toString (cond isatty 1 0)) (by decide) (by decide)]
    · rcases List.mem_singleton.mp h with rfl
      simp [beginsWith_append_disjoint "--rc_source=" "--terminal_columns="
        (toString cols) (by decide) (by decide)]
  have h4 : ((if batch then ["--ignore_client_env"]
      else env.map (fun e => "--client_env=" ++ e)).filter
        (fun s => beginsWith "--rc_source=" s)) = [] := by
    cases batch with
    | true =>
      rw [if_pos rfl]
      decide
    | false =>
      rw [if_neg (by simp)]
      rw [List.filter_eq_nil_iff]
      intro a ha
      rcases List.mem_map.mp ha with ⟨e, _, he⟩
      rw [← he]
      simp [beginsWith_append_disjoint "--rc_source=" "--client_env=" e
        (by decide) (by decide)]
  have h5 : (["--client_cwd=" ++ cwd]).filter (fun s => beginsWith "--rc_source=" s) = [] := by
    rw [List.filter_eq_nil_iff]
    intro a ha
    rcases List.mem_singleton.mp ha with rfl
    simp [beginsWith_append_disjoint "--rc_source=" "--client_cwd=" cwd
      (by decide) (by decide)]
  have h6 : ((if emacsEnv = some "t" then ["--emacs"] else []).filter
      (fun s => beginsWith "--rc_source=" s)) = [] := by
    split
    · decide
    · rfl
  unfold addRcfileArgsAndOptions
  simp only [List.filter_append, h1, h2, h3, h4, h5, h6, List.append_nil, List.nil_append]

/-- C5: environment pass-through and batch mode are mutually exclusive in the
built argument vector: with `batch = false` there is no `--ignore_client_env`
and exactly one `--client_env=` entry per inherited environment variable; with
`batch = true` there is exactly one `--ignore_client_env` and no
`--client_env=` entry. -/
theorem client_env_batch_exclusive (batch : Bool) (cwd : String) (bl : List RcFile)
    (ro : RcOptions) (isatty : Bool) (cols : Int) (env : List String)
    (emacsEnv : Option String) :
    ((addRcfileArgsAndOptions batch cwd bl ro isatty cols env emacsEnv).count
        "--ignore_client_env" = if batch then 1 else 0) ∧
    ((addRcfileArgsAndOptions batch cwd bl ro isatty cols env emacsEnv).countP
        (fun s => beginsWith "--client_env=" s) = if batch then 0 else env.length) := by
  have hrc1 : (rcSourceArgs bl).count "--ignore_client_env" = 0 := by
    rw [List.count_eq_zero]
    intro hmem
    rcases mem_rcSourceArgs bl _ hmem with ⟨t, ht⟩
    exact append_ne_of_beginsWith_false _ _ t (by decide) ht.symm
  have hov1 : (defaultOverrideArgs ro).count "--ignore_client_env" = 0 := by
    rw [List.count_eq_zero]
    intro hmem
    rcases mem_defaultOverrideArgs ro _ hmem with ⟨t, ht⟩
    exact append_ne_of_beginsWith_false _ _ t (by decide) ht.symm
  have hterm1 : (["--isatty=" ++ toString (cond isatty 1 0),
      "--terminal_columns=" ++ toString cols]).count "--ignore_client_env" = 0 := by
    rw [List.count_eq_zero]
    intro hmem
    rcases List.mem_cons.mp hmem with h | h
    · exact append_ne_of_beginsWith_false _ _ _ (by decide) h.symm
    · rcases List.mem_singleton.mp h with h2
      exact append_ne_of_beginsWith_false _ _ _ (by decide) h2.symm
  have henv1 : ((if batch then ["--ignore_client_env"]
      else env.map (fun e => "--client_env=" ++ e)).count "--ignore_client_env")
      = if batch then 1 else 0 := by
    cases batch with
    | true =>
      rw [if_pos rfl, if_pos rfl]
      decide
    | false =>
      simp only [if_neg (by simp : ¬ (false : Bool) = true)]
      rw [List.count_eq_zero]
      intro hmem
      rcases List.mem_map.mp hmem with ⟨e, _, he⟩
      exact append_ne_of_beginsWith_false _ _ e (by decide) he
  have hcwd1 : (["--client_cwd=" ++ cwd]).count "--ignore_client_env" = 0 := by
    rw [List.count_eq_zero]
    intro hmem
    rcases List.mem_singleton.mp hmem with h2
    exact append_ne_of_beginsWith_false _ _ _ (by decide) h2.symm
  have hem1 : ((if emacsEnv = some "t" then ["--emacs"] else []).count
      "--ignore_client_env") = 0 := by
    split
    · decide
    · rfl
  have hrc2 : (rcSourceArgs bl).countP (fun s => beginsWith "--client_env=" s) = 0 := by
    rw [List.countP_eq_zero]
    intro a ha
    rcases mem_rcSourceArgs bl a ha with ⟨t, ht⟩
    rw [ht]
    simp [beginsWith_append_disjoint "--client_env=" "--rc_source=" t
      (by decide) (by decide)]
  have hov2 : (defaultOverrideArgs ro).countP (fun s => beginsWith "--client_env=" s) = 0 := by
    rw [List.countP_eq_zero]
    intro a ha
    rcases mem_defaultOverrideArgs ro a ha with ⟨t, ht⟩
    rw [ht]
    simp [beginsWith_append_disjoint "--client_env=" "--default_override=" t
      (by decide) (by decide)]
  have hterm2 : (["--isatty=" ++ toString (cond isatty 1 0),
      "--terminal_columns=" ++ toString cols]).countP
        (fun s => beginsWith "--client_env=" s) = 0 := by
    rw [List.countP_eq_zero]
    intro a ha
    rcases List.mem_cons.mp ha with h | h
    · rw [h]
      simp [beginsWith_append_disjoint "--client_env=" "--isatty="
        (toString (cond isatty 1 0)) (by decide) (by decide)]
    · rcases List.mem_singleton.mp h with rfl
      simp [beginsWith_append_disjoint "--client_env=" "--terminal_columns="
        (toString cols) (by decide) (by decide)]
  have henv2 : ((if batch then ["--ignore_client_env"]
      else env.map (fun e => "--client_env=" ++ e)).countP
        (fun s => beginsWith "--client_env=" s)) = if batch then 0 else env.length := by
    cases batch with
    | true =>
      rw [if_pos rfl, if_pos rfl]
      decide
    | false =>
      simp only [if_neg (by simp : ¬ (false : Bool) = true)]
      rw [List.countP_eq_length.mpr]
      · rw [List.length_map]
      · intro a ha
        rcases List.mem_map.mp ha with ⟨e, _, he⟩
        rw [← he]
        simp [beginsWith_append]
  have hcwd2 : (["--client_cwd=" ++ cwd]).countP (fun s => beginsWith "--client_env=" s)
      = 0 := by
    rw [List.countP_eq_zero]
    intro a ha
    rcases List.mem_singleton.mp ha with rfl
    simp [beginsWith_append_disjoint "--client_env=" "--client_cwd=" cwd
      (by decide) (by decide)]
  have hem2 : ((if emacsEnv = some "t" then ["--emacs"] else []).countP
      (fun s => beginsWith "--client_env=" s)) = 0 := by
    split
    · decide
    · rfl
  constructor
  · unfold addRcfileArgsAndOptions
    simp only [List.count_append, hrc1, hov1, hterm1, henv1, hcwd1, hem1]
    cases batch <;> simp
  · unfold addRcfileArgsAndOptions
    simp only [List.countP_append, hrc2, hov2, hterm2, henv2, hcwd2, hem2]
    cases batch <;> simp

theorem charListLt_trans : ∀ a b c : List Char,
    charListLt a b = true → charListLt b c = true → charListLt a c = true := by
  intro a
  induction a with
  | nil =>
    intro b c h1 h2
    match b, c with
    | [], _ => simp [charListLt] at h1
    | _ :: _, [] => simp [charListLt] at h2
    | _ :: _, _ :: _ => rfl
  | cons x xs ih =>
    intro b c h1 h2
    match b, c with
    | [], _ => simp [charListLt] at h1
    | _ :: _, [] => simp [charListLt] at h2
    | d :: ds, e :: es =>
      simp only [charListLt] at h1 h2 ⊢
      by_cases hxd : x.toNat < d.toNat
      · by_cases hde : d.toNat < e.toNat
        · rw [if_pos (by omega)]
        · rw [if_neg hde] at h2
          by_cases hed : e.toNat < d.toNat
          · rw [if_pos hed] at h2
            cases h2
          · rw [if_pos (by omega)]
      · rw [if_neg hxd] at h1
        by_cases hdx : d.toNat < x.toNat
        · rw [if_pos hdx] at h1
          cases h1
        · rw [if_neg hdx] at h1
          by_cases hde : d.toNat < e.toNat
          · rw [if_pos (by omega)]
          · rw [if_neg hde] at h2
            by_cases hed : e.toNat < d.toNat
            · rw [if_pos hed] at h2
              cases h2
            · rw [if_neg hed] at h2
              rw [if_neg (by omega), if_neg (by omega)]
              exact ih ds es h1 h2

theorem charListLt_eq_of_not : ∀ a b : List Char,
    charListLt a b = false → charListLt b a = false → a = b := by
  intro a
  induction a with
  | nil =>
    intro b h1 _
    match b with
    | [] => rfl
    | _ :: _ => simp [charListLt] at h1
  | cons x xs ih =>
    intro b h1 h2
    match b with
    | [] => simp [charListLt] at h2
    | d :: ds =>
      simp only [charListLt] at h1 h2
      by_cases hxd : x.toNat < d.toNat
      · rw [if_pos hxd] at h1
        cases h1
      · by_cases hdx : d.toNat < x.toNat
        · rw [if_pos hdx] at h2
          cases h2
        · rw [if_neg hxd, if_neg hdx] at h1
          rw [if_neg hdx, if_neg hxd] at h2
          have hnat : x.toNat = d.toNat := by omega
          have hx : x = d := Char.eq_of_val_eq (UInt32.ext (by simpa [Char.toNat] using hnat))
          rw [hx, ih ds h1 h2]

theorem strLt_trans (a b c : String) (h1 : strLt a b = true) (h2 : strLt b c = true) :
    strLt a c = true := charListLt_trans _ _ _ h1 h2

theorem strLt_eq_of_not (a b : String) (h1 : strLt a b = false) (h2 : strLt b a = false) :
    a = b := string_eq_of_data _ _ (charListLt_eq_of_not _ _ h1 h2)

theorem insertRcOption_keys : ∀ (ro : RcOptions) (k : String) (o : RcOption)
    (kv : String × List RcOption), kv ∈ insertRcOption ro k o →
    kv.1 = k ∨ kv.1 ∈ ro.map (fun p => p.1) := by
  intro ro
  induction ro with
  | nil =>
    intro k o kv h
    rcases List.mem_singleton.mp h with rfl
    exact Or.inl rfl
  | cons kv1 rest ih =>
    intro k o kv h
    obtain ⟨k1, os⟩ := kv1
    by_cases hlt : strLt k k1 = true
    · rw [insertRcOption, if_pos hlt] at h
      rcases List.mem_cons.mp h with h2 | h2
      · exact Or.inl (by rw [h2])
      · exact Or.inr (List.mem_map_of_mem _ h2)
    · by_cases heq : k = k1
      · rw [insertRcOption, if_neg hlt, if_pos heq] at h
        rcases List.mem_cons.mp h with h2 | h2
        · exact Or.inl (by rw [h2, heq])
        · exact Or.inr (List.mem_map_of_mem _ (List.mem_cons_of_mem _ h2))
      · rw [insertRcOption, if_neg hlt, if_neg heq] at h
        rcases List.mem_cons.mp h with h2 | h2
        · subst h2
          exact Or.inr (by simp)
        · rcases ih k o kv h2 with h3 | h3
          · exact Or.inl h3
          · exact Or.inr (by simp only [List.map_cons, List.mem_cons]; exact Or.inr h3)

theorem insertRcOption_pairwise : ∀ (ro : RcOptions) (k : String) (o : RcOption),
    List.Pairwise (fun a b => strLt a.1 b.1 = true) ro →
    List.Pairwise (fun a b => strLt a.1 b.1 = true) (insertRcOption ro k o) := by
  intro ro
  induction ro with
  | nil =>
    intro k o _
    simp [insertRcOption]
  | cons kv1 rest ih =>
    intro k o hp
    obtain ⟨k1, os⟩ := kv1
    rcases List.pairwise_cons.mp hp with ⟨h1, h2⟩
    by_cases hlt : strLt k k1 = true
    · rw [insertRcOption, if_pos hlt]
      refine List.Pairwise.cons ?_ hp
      intro b hb
      rcases List.mem_cons.mp hb with hb2 | hb2
      · rw [hb2]
        exact hlt
      · exact strLt_trans _ _ _ hlt (h1 b hb2)
    · by_cases heq : k = k1
      · rw [insertRcOption, if_neg hlt, if_pos heq]
        exact List.Pairwise.cons h1 h2
      · rw [insertRcOption, if_neg hlt, if_neg heq]
        refine List.Pairwise.cons ?_ (ih k o h2)
        intro b hb
        rcases insertRcOption_keys rest k o b hb with hb2 | hb2
        · rw [hb2]
          cases hlk : strLt k1 k with
          | true => rfl
          | false =>
            exact absurd (strLt_eq_of_not k k1 (Bool.not_eq_true _ ▸ hlt) hlk) heq
        · rcases List.mem_map.mp hb2 with ⟨p, hp1, hp2⟩
          rw [← hp2]
          exact h1 p hp1

/-- C3 counterexample: a file collecting a `test` entry before a `build` entry.
The parser stores them under their keywords (the map is iterated in sorted key
order), so the emitted `--default_override` sequence lists the `build` entry
first — it does not preserve the global collection order, which had the `test`
entry first. -/
theorem default_override_global_order_counterexample :
    parseFile (fun f => if f = "/rc" then some "test --t\nbuild --b" else none)
        10 "/rc" 0 [⟨"/rc", 0⟩] [] ["/rc"]
      = some (.ok ([⟨"/rc", 0⟩], [("build", [⟨0, "--b"⟩]), ("test", [⟨0, "--t"⟩])])) ∧
    defaultOverrideArgs [("build", [⟨0, "--b"⟩]), ("test", [⟨0, "--t"⟩])]
      = ["--default_override=0:build=--b", "--default_override=0:test=--t"] ∧
    defaultOverrideArgs [("build", [⟨0, "--b"⟩]), ("test", [⟨0, "--t"⟩])]
      ≠ ["--default_override=0:test=--t", "--default_override=0:build=--b"] := by
  refine ⟨by decide, by decide, by decide⟩

/-- C3 amended: the builder emits exactly one `--default_override` entry per
collected non-`startup` option entry, each encoding the origin index, keyword
and raw text; the entries are grouped by keyword in the sorted (ascending)
keyword order of the option map — insertion keeps the keys strictly ascending — and
only within one keyword is collection order preserved. -/
theorem default_override_amended (ro : RcOptions) :
    defaultOverrideArgs ro
        = ((ro.filter (fun kv => kv.1 != "startup")).map
            (fun kv => kv.2.map (fun o =>
              "--default_override="
                ++ (toString o.rcfile_index ++ ":" ++ kv.1 ++ "=" ++ o.option)))).flatten ∧
    (defaultOverrideArgs ro).length
        = ((ro.filter (fun kv => kv.1 != "startup")).map (fun kv => kv.2.length)).sum ∧
    (∀ (ro2 : RcOptions) (k : String) (o : RcOption),
      List.Pairwise (fun a b => strLt a.1 b.1 = true) ro2 →
      List.Pairwise (fun a b => strLt a.1 b.1 = true) (insertRcOption ro2 k o)) := by
  have hA : ∀ ro2 : RcOptions, defaultOverrideArgs ro2
      = ((ro2.filter (fun kv => kv.1 != "startup")).map
          (fun kv => kv.2.map (fun o =>
            "--default_override="
              ++ (toString o.rcfile_index ++ ":" ++ kv.1 ++ "=" ++ o.option)))).flatten := by
    intro ro2
    induction ro2 with
    | nil => rfl
    | cons kv rest ih =>
      obtain ⟨k, os⟩ := kv
      by_cases hk : k = "startup"
      · simp [defaultOverrideArgs, hk, List.filter_cons, ih]
      · simp [defaultOverrideArgs, hk, List.filter_cons, ih]
  refine ⟨hA ro, ?_, insertRcOption_pairwise⟩
  rw [hA ro]
  simp [List.length_flatten, List.map_map, Function.comp_def]

/-- C3 amended witness: inserting a new keyword into a sorted map keeps the
keys sorted. -/
theorem default_override_amended_witness :
    List.Pairwise (fun (a b : String × List RcOption) => strLt a.1 b.1 = true)
      (insertRcOption [("build", [⟨0, "--b"⟩])] "test" ⟨0, "--t"⟩) :=
  (default_override_amended []).2.2 [("build", [⟨0, "--b"⟩])] "test" ⟨0, "--t"⟩
    (by simp)
